import Mathlib

/-!
Verification of the video-tagger batch pipeline (`video_tagger.py`).

The development shallowly embeds the pipeline: Python strings are `List Char`,
the filesystem and the remote service are explicit oracle values, machine
floats for wall-clock time and backoff delays are rationals, and every
fallible code path returns an `Option` whose `none` stands for a raised
exception.  Each definition mirrors one function (or one self-contained
block) of the source file.
-/

namespace VideoTagger

/-! ## Python string primitives -/

/-- Python `str.strip()` whitespace set (`\x0b` and `\x0c` included). -/
def pyIsSpace (c : Char) : Bool :=
  c = ' ' || c = '\t' || c = '\n' || c = '\r' || c = '\x0b' || c = '\x0c'

/-- Python `str.strip()`: drop whitespace from both ends. -/
def pyStrip (l : List Char) : List Char :=
  ((l.dropWhile pyIsSpace).reverse.dropWhile pyIsSpace).reverse

/-- Python `str.lower()` (ASCII inputs only are ever passed here). -/
def lcLower (l : List Char) : List Char := l.map Char.toLower

/-- Python `needle in haystack` substring test. -/
def containsSub (pat : List Char) : List Char → Bool
  | [] => pat.isEmpty
  | c :: rest => pat.isPrefixOf (c :: rest) || containsSub pat rest

/-- Python `s.split(sep, 1)`: `some (before, after)` at the first occurrence
of `sep`, `none` when `sep` does not occur (the Python call then returns a
one-element list, so indexing `[1]` raises `IndexError`). -/
def splitFirst (sep : List Char) : List Char → Option (List Char × List Char)
  | [] => if sep.isEmpty then some ([], []) else none
  | c :: rest =>
    if sep.isPrefixOf (c :: rest) then some ([], (c :: rest).drop sep.length)
    else (splitFirst sep rest).map (fun ab => (c :: ab.1, ab.2))

/-- Python `s.split('\n')`. -/
def splitOnNL : List Char → List (List Char)
  | [] => [[]]
  | c :: rest =>
    if c = '\n' then [] :: splitOnNL rest
    else
      match splitOnNL rest with
      | [] => [[c]]
      | l :: ls => (c :: l) :: ls

/-- Python `s.replace(pat, repl)` (all occurrences), fueled so that the
recursion is structural; `pyReplace` always supplies enough fuel. -/
def pyReplaceAux (pat repl : List Char) : Nat → List Char → List Char
  | 0, l => l
  | _ + 1, [] => []
  | fuel + 1, c :: rest =>
    if pat.isPrefixOf (c :: rest) && !pat.isEmpty then
      repl ++ pyReplaceAux pat repl fuel (rest.drop (pat.length - 1))
    else c :: pyReplaceAux pat repl fuel rest

/-- Python `s.replace(pat, repl)` for a non-empty `pat`. -/
def pyReplace (pat repl l : List Char) : List Char :=
  pyReplaceAux pat repl l.length l

/-! ## Literal strings of the source -/

def emptyStr : String := ""

def mDescC : List Char := "Description:".data

def mTagsC : List Char := "Tags:".data

def descMarker : List Char := "description:".data

def tagsMarker : List Char := "tags:".data

def wDesc : List Char := "description".data

def wTags : List Char := "tags".data

def canonDesc : List Char := "- Description:".data

def canonTags : List Char := "- Tags:".data

def videoSlash : List Char := "video/".data

def stACTIVE : String := "ACTIVE"

def stFAILED : String := "FAILED"

def errInvalidFile : String := "Invalid or unsupported video file"

def errUploadFailed : String := "Failed to upload video to File API"

def errProcessing : String := "Video processing failed or timed out"

def errEmptyResponse : String := "Empty response received after multiple attempts"

/-- Message of the Python `IndexError` raised by `line.split(...)[1]`. -/
def errIndexMsg : String := "list index out of range"

/-- Message of the dead final return of the generation loop (lines 275-278);
the loop in fact always returns from inside its body. -/
def errMaxRetry : String := "Maximum retry attempts exceeded"

/-! ## Data model -/

/-- A per-file analysis outcome: the Python code builds a dict holding the
filename together with either a `"response"` entry or an `"error"` entry. -/
structure AnalysisResult where
  filename : String
  response : Option (List Char)
  error : Option String
deriving DecidableEq

def mkSuccess (fn : String) (t : List Char) : AnalysisResult :=
  { filename := fn, response := some t, error := none }

def mkError (fn : String) (msg : String) : AnalysisResult :=
  { filename := fn, response := none, error := some msg }

/-- The dict carries exactly one of the response / error entries. -/
def exactlyOne (r : AnalysisResult) : Prop :=
  (r.response.isSome = true ∧ r.error = none) ∨
  (r.response = none ∧ r.error.isSome = true)

/-- Abstract view of one filesystem path as seen by `is_valid_video_file`:
existence, regular-file flag, byte size, `Path.suffix`, and the
`mimetypes.guess_type` answer (the basename is carried for result records). -/
structure PathInfo where
  pathExists : Bool
  isFile : Bool
  size : Nat
  suffix : List Char
  mime : Option (List Char)
  name : String
deriving DecidableEq

/-- One entry produced by the recursive directory scan `path.glob('**/*')`:
the subdirectory components, the basename, and `Path.suffix`. -/
structure DirEntry where
  dir : List String
  name : String
  suffix : List Char
deriving DecidableEq

/-! ## File Validator (`is_valid_video_file`, lines 35-66) -/

def videoExtensionsL : List (List Char) :=
  [".mp4".data, ".mpeg".data, ".mov".data, ".avi".data, ".flv".data,
   ".mpg".data, ".webm".data, ".wmv".data, ".3gp".data]

/-- Model of `is_valid_video_file(file_path, min_size_bytes=10)`. -/
def isValidVideoFile (p : PathInfo) (minSizeBytes : Nat) : Bool :=
  if !p.pathExists || !p.isFile then false
  else if p.size < minSizeBytes then false
  else if !(videoExtensionsL.contains (lcLower p.suffix)) then false
  else if (match p.mime with
           | some m => !(videoSlash.isPrefixOf m)
           | none => false) then false
  else true

/-! ## Remote Upload Client (`upload_video_to_file_api`, lines 68-101)

The remote call of try number `i` (zero-based) is the oracle `attempts i`:
`some handle` when `client.upload_file` returns, `none` when it raises. -/

def uploadAux (attempts : Nat → Option String) : Nat → Nat → Option String
  | 0, _ => none
  | fuel + 1, i =>
    match attempts i with
    | some h => some h
    | none => uploadAux attempts fuel (i + 1)

/-- Model of `upload_video_to_file_api`: tries `max_retries + 1` times
(`retry_count` runs from 0 through `max_retries`), returns `None` once
retries are exhausted, never raises. -/
def uploadVideo (attempts : Nat → Option String) (maxRetries : Nat) : Option String :=
  uploadAux attempts (maxRetries + 1) 0

/-- Backoff before retry `n` of the upload (line 93):
`base_delay * (2 ** retry_count) + random.uniform(0, 1)`. -/
def uploadBackoffDelay (baseDelay : ℚ) (n : Nat) (jitter : ℚ) : ℚ :=
  baseDelay * 2 ^ n + jitter

/-! ## Readiness Poller (`wait_for_file_processing`, lines 103-142)

One loop iteration reads the wall clock and then queries the remote state;
a run is the list of `(elapsed time, query outcome)` pairs in iteration
order.  `PollResult.diverged` marks a trace too short to decide the loop. -/

inductive PollStep where
  | ok (state : String) (handle : String)
  | exn (msg : String)
deriving DecidableEq

inductive PollResult where
  | success (handle : String)
  | timeout
  | procFailed
  | queryError (msg : String)
  | diverged
deriving DecidableEq

/-- Model of `wait_for_file_processing` over a trace of iterations. -/
def waitReady (maxWait : ℚ) : List (ℚ × PollStep) → PollResult
  | [] => PollResult.diverged
  | (elapsed, step) :: rest =>
    if maxWait < elapsed then PollResult.timeout
    else
      match step with
      | PollStep.exn m => PollResult.queryError m
      | PollStep.ok st h =>
        if st = stACTIVE then PollResult.success h
        else if st = stFAILED then PollResult.procFailed
        else waitReady maxWait rest

/-- An iteration on which the loop neither times out nor terminates:
in-time, and a successful query reporting a state other than
`ACTIVE`/`FAILED`. -/
def pollContinues (maxWait : ℚ) (p : ℚ × PollStep) : Bool :=
  !(decide (maxWait < p.1)) &&
    (match p.2 with
     | PollStep.exn _ => false
     | PollStep.ok st _ => !(st == stACTIVE) && !(st == stFAILED))

/-! ## Inference Invoker (`analyze_video`, lines 144-278)

The format-repair block (lines 232-252) runs on the stripped response text;
`none` models the `IndexError` that `line.split("description:", 1)[1]`
raises when the marker matched only case-insensitively. -/

/-- What one line of the repair loop appends to `formatted_text`:
`some []` when the line matches no marker. -/
def repairLinePiece (line : List Char) : Option (List Char) :=
  let l := pyStrip line
  if descMarker.isPrefixOf (lcLower l) || containsSub descMarker (lcLower l) then
    match splitFirst descMarker l with
    | some ab => some (canonDesc ++ pyStrip ab.2 ++ ['\n'])
    | none => none
  else if tagsMarker.isPrefixOf (lcLower l) || containsSub tagsMarker (lcLower l) then
    match splitFirst tagsMarker l with
    | some ab => some (canonTags ++ pyStrip ab.2)
    | none => none
  else some []

/-- The repair loop: accumulate `formatted_text` over the lines. -/
def repairLines : List (List Char) → List Char → Option (List Char)
  | [], acc => some acc
  | line :: rest, acc =>
    match repairLinePiece line with
    | some piece => repairLines rest (acc ++ piece)
    | none => none

/-- Lines 234-252 applied to the stripped response text: the canonical-format
check, the colon-less pre-check, the line-repair loop, and the
keep-as-is fallbacks. -/
def repairText (text : List Char) : Option (List Char) :=
  if containsSub mDescC text && containsSub mTagsC text then some text
  else if containsSub wDesc (lcLower text) && containsSub wTags (lcLower text) then
    match repairLines (splitOnNL text) [] with
    | some formatted => some (if formatted.isEmpty then text else formatted)
    | none => none
  else some text

/-- Outcome of one `model.generate_content` call: an exception, or a
response carrying text. -/
inductive GenOutcome where
  | exn (msg : String)
  | reply (text : List Char)

/-- The generation retry loop (lines 200-273); `fuel` is the number of tries
still allowed (`max_retries + 1 - retry_count`), `i` the zero-based index of
the current try. -/
def genLoopAux (name : String) (attempts : Nat → GenOutcome) : Nat → Nat → AnalysisResult
  | 0, _ => mkError name errMaxRetry
  | fuel + 1, i =>
    match attempts i with
    | GenOutcome.exn msg =>
      if fuel = 0 then mkError name msg
      else genLoopAux name attempts fuel (i + 1)
    | GenOutcome.reply t =>
      if (pyStrip t).isEmpty then
        if fuel = 0 then mkError name errEmptyResponse
        else genLoopAux name attempts fuel (i + 1)
      else
        match repairText (pyStrip t) with
        | none =>
          if fuel = 0 then mkError name errIndexMsg
          else genLoopAux name attempts fuel (i + 1)
        | some t2 => mkSuccess name t2

def genLoop (name : String) (attempts : Nat → GenOutcome) (maxRetries : Nat) : AnalysisResult :=
  genLoopAux name attempts (maxRetries + 1) 0

/-- The remote world one `analyze_video` call observes: the upload outcome
(after its own internal retries), the poller outcome, and the generation
outcomes per try. -/
structure Remote where
  uploadResult : Option String
  waitResult : Option String
  gen : Nat → GenOutcome

/-- Model of `analyze_video`: validate, upload, wait, then the generation loop; every
failing stage short-circuits to an error record. -/
def analyzeVideo (info : PathInfo) (remote : Remote) (maxRetries : Nat) : AnalysisResult :=
  if !isValidVideoFile info 10 then mkError info.name errInvalidFile
  else
    match remote.uploadResult with
    | none => mkError info.name errUploadFailed
    | some _ =>
      match remote.waitResult with
      | none => mkError info.name errProcessing
      | some _ => genLoop info.name remote.gen maxRetries

/-! ## Result Formatter, tabular branch (`format_output`, lines 362-416)

Rows are modelled before `csv.writer` serialization: one cell list per row. -/

/-- Strict parsing pass (lines 388-395): scan for the canonical
`- Description:` / `- Tags:` line prefixes. -/
def strictPass : List (List Char) → List Char × List Char → List Char × List Char
  | [], dt => dt
  | line :: rest, (d, t) =>
    let l := pyStrip line
    if canonDesc.isPrefixOf l then
      strictPass rest (pyStrip (pyReplace canonDesc [] l), t)
    else if canonTags.isPrefixOf l then
      strictPass rest (d, pyStrip (pyReplace canonTags [] l))
    else strictPass rest (d, t)

/-- Relaxed parsing pass (lines 400-412): case-insensitive substring search
on the lowered line, guarded split. -/
def relaxedPass : List (List Char) → List Char × List Char → List Char × List Char
  | [], dt => dt
  | line :: rest, (d, t) =>
    let l := lcLower (pyStrip line)
    if containsSub descMarker l then
      match splitFirst descMarker l with
      | some ab => relaxedPass rest (pyStrip ab.2, t)
      | none => relaxedPass rest (d, t)
    else if containsSub tagsMarker l then
      match splitFirst tagsMarker l with
      | some ab => relaxedPass rest (d, pyStrip ab.2)
      | none => relaxedPass rest (d, t)
    else relaxedPass rest (d, t)

/-- One data row of the tabular output (lines 373-414). -/
def csvRow (r : AnalysisResult) : List (List Char) :=
  match r.error with
  | some e => [r.filename.data, "ERROR: ".data ++ e.data, []]
  | none =>
    let lines := splitOnNL (pyStrip (r.response.getD []))
    let dt := strictPass lines ([], [])
    let dt2 := if dt.1.isEmpty && dt.2.isEmpty then relaxedPass lines ([], []) else dt
    [r.filename.data, dt2.1, dt2.2]

/-- The tabular formatter: header row then one data row per result. -/
def formatCsv (results : List AnalysisResult) : List (List (List Char)) :=
  ["Filename".data, "Description".data, "Tags".data] :: results.map csvRow

/-! ## Batch Orchestrator (`process_videos`, lines 280-355) -/

/-- The `specific_file` restriction (lines 298-300); the Python guard
`if specific_file and ...` makes an empty string behave like `None`. -/
def specMatch (specific : Option String) (n : String) : Bool :=
  match specific with
  | none => true
  | some s => if s == emptyStr then true else n == s

/-- Lines 296-301: keep the scanned entries with a recognized extension,
restricted to `specific` when given. -/
def collectVideoFiles (entries : List DirEntry) (specific : Option String) : List DirEntry :=
  entries.filter (fun e =>
    videoExtensionsL.contains (lcLower e.suffix) && specMatch specific e.name)

/-- A `results.csv` data row both guards accept (lines 317 and 323):
at least three cells, with filename, description and tags all non-empty. -/
def rowOkB (row : List String) : Bool :=
  (decide (3 ≤ row.length) && !(row.getD 0 emptyStr).isEmpty) &&
    (!(row.getD 1 emptyStr).isEmpty && !(row.getD 2 emptyStr).isEmpty)

/-- Line 327: rebuild a response from the stored description and tags. -/
def reconstitute (row : List String) : AnalysisResult :=
  mkSuccess (row.getD 0 emptyStr)
    ("- Description: ".data ++ (row.getD 1 emptyStr).data ++
      "\n- Tags: ".data ++ (row.getD 2 emptyStr).data)

/-- Lines 313-329: fold the data rows of `results.csv` into the
`previous_processed` name set and the `previous_results` list. -/
def prevFromRows : List (List String) → List String × List AnalysisResult
  | [] => ([], [])
  | row :: rest =>
    let p := prevFromRows rest
    if decide (3 ≤ row.length) && !(row.getD 0 emptyStr).isEmpty then
      if !(row.getD 1 emptyStr).isEmpty && !(row.getD 2 emptyStr).isEmpty then
        (row.getD 0 emptyStr :: p.1, reconstitute row :: p.2)
      else p
    else p

/-- Lines 305-336: previous results are consulted only when `force_retry`
is off and `results.csv` exists (`csvRows = some rows`). -/
def previousOf (forceRetry : Bool) (csvRows : Option (List (List String))) :
    List String × List AnalysisResult :=
  if !forceRetry then
    match csvRows with
    | some rows => prevFromRows rows
    | none => ([], [])
  else ([], [])

/-- Lines 331-334: drop already-processed basenames (guarded on the skip
set being non-empty, as in the source). -/
def remainingFiles (entries : List DirEntry) (forceRetry : Bool)
    (csvRows : Option (List (List String))) (specific : Option String) : List DirEntry :=
  let vf := collectVideoFiles entries specific
  let prev := (previousOf forceRetry csvRows).1
  if prev.isEmpty then vf else vf.filter (fun f => !(prev.contains f.name))

/-- The directory branch of `process_videos` (lines 290-351): analyze the
remaining files in enumeration order, then append the reconstituted
previous results. -/
def processDir (analyze : DirEntry → AnalysisResult) (entries : List DirEntry)
    (forceRetry : Bool) (csvRows : Option (List (List String)))
    (specific : Option String) : List AnalysisResult :=
  (remainingFiles entries forceRetry csvRows specific).map analyze ++
    (previousOf forceRetry csvRows).2

/-! ## Generic lemmas about the Python string primitives -/

theorem containsSub_iff (p : List Char) : ∀ l : List Char, containsSub p l = true ↔ p <:+: l := by
  intro l
  induction l with
  | nil =>
    simp only [containsSub, List.isEmpty_iff, List.infix_nil]
  | cons c rest ih =>
    simp only [containsSub, Bool.or_eq_true, List.isPrefixOf_iff_prefix, ih,
      List.infix_cons_iff]

theorem splitFirst_isSome (p : List Char) : ∀ l : List Char,
    (splitFirst p l).isSome = containsSub p l := by
  intro l
  induction l with
  | nil =>
    cases p <;> simp [splitFirst, containsSub]
  | cons c rest ih =>
    simp only [splitFirst, containsSub]
    by_cases h : p.isPrefixOf (c :: rest)
    · simp [h]
    · simp only [Bool.eq_false_iff, ne_eq] at h
      simp [h, Option.isSome_map, ih]

theorem isPrefixOf_imp_containsSub (p l : List Char) (h : p.isPrefixOf l = true) :
    containsSub p l = true := by
  rw [containsSub_iff]
  exact ( List.isPrefixOf_iff_prefix.mp h).isInfix

theorem mark_or (p x : List Char) :
    (p.isPrefixOf x || containsSub p x) = containsSub p x := by
  by_cases hp : p.isPrefixOf x = true
  · simp [hp, isPrefixOf_imp_containsSub p x hp]
  · simp only [Bool.not_eq_true] at hp
    simp [hp]

theorem containsSub_lcLower (p l : List Char) (hp : lcLower p = p)
    (h : containsSub p l = true) : containsSub p (lcLower l) = true := by
  rw [containsSub_iff] at h ⊢
  have := h.map Char.toLower
  rwa [show p.map Char.toLower = p from hp] at this

theorem containsSub_mono (p l₁ l₂ : List Char) (h : containsSub p l₁ = true)
    (hsub : l₁ <:+: l₂) : containsSub p l₂ = true := by
  rw [containsSub_iff] at h ⊢
  exact h.trans hsub

theorem pyStrip_isInfix (l : List Char) : pyStrip l <:+: l := by
  unfold pyStrip
  have h1 : l.dropWhile pyIsSpace <:+ l := List.dropWhile_suffix pyIsSpace
  have h2 : (l.dropWhile pyIsSpace).reverse.dropWhile pyIsSpace <:+
      (l.dropWhile pyIsSpace).reverse := List.dropWhile_suffix pyIsSpace
  have h3 : ((l.dropWhile pyIsSpace).reverse.dropWhile pyIsSpace).reverse <+:
      l.dropWhile pyIsSpace := by
    rw [← List.reverse_suffix, List.reverse_reverse]
    exact h2
  exact h3.isInfix.trans h1.isInfix

theorem splitOnNL_ne_nil : ∀ l : List Char, splitOnNL l ≠ [] := by
  intro l
  cases l with
  | nil => simp [splitOnNL]
  | cons c rest =>
    simp only [splitOnNL]
    by_cases hc : c = '\n'
    · simp [hc]
    · simp only [hc, if_false]
      cases hsp : splitOnNL rest with
      | nil => simp
      | cons a as => simp

theorem splitOnNL_spec : ∀ text : List Char,
    (∀ l0 ls, splitOnNL text = l0 :: ls → l0 <+: text) ∧
    (∀ l ∈ splitOnNL text, l <:+: text) := by
  intro text
  induction text with
  | nil =>
    constructor
    · intro l0 ls h
      simp only [splitOnNL] at h
      cases h
      exact List.nil_prefix
    · intro l hl
      simp only [splitOnNL, List.mem_singleton] at hl
      subst hl
      exact List.infix_refl []
  | cons c rest ih =>
    by_cases hc : c = '\n'
    · subst hc
      have hstep : splitOnNL ('\n' :: rest) = [] :: splitOnNL rest := by
        simp [splitOnNL]
      constructor
      · intro l0 ls h
        rw [hstep] at h
        injection h with h1 h2
        subst h1
        exact List.nil_prefix
      · intro l hl
        rw [hstep] at hl
        rcases List.mem_cons.mp hl with h1 | h1
        · subst h1
          exact List.nil_infix
        · exact List.infix_cons (ih.2 l h1)
    · obtain ⟨l0, ls, heq⟩ := List.exists_cons_of_ne_nil (splitOnNL_ne_nil rest)
      have hstep : splitOnNL (c :: rest) = (c :: l0) :: ls := by
        simp only [splitOnNL, hc, if_false, heq]
      have hpre : l0 <+: rest := ih.1 l0 ls heq
      constructor
      · intro m ms h
        rw [hstep] at h
        cases h
        exact List.cons_prefix_cons.mpr ⟨rfl, hpre⟩
      · intro l hl
        rw [hstep] at hl
        rcases List.mem_cons.mp hl with rfl | hl
        · exact (List.cons_prefix_cons.mpr ⟨rfl, hpre⟩).isInfix
        · have : l ∈ splitOnNL rest := heq ▸ List.mem_cons_of_mem l0 hl
          exact List.infix_cons (ih.2 l this)

/-! ## Lemmas about the format-repair block -/

/-- A line whose case-insensitive marker matches are backed by a literal
lowercase marker occurrence, so `line.split(marker, 1)[1]` cannot raise. -/
def goodLine (line : List Char) : Prop :=
  (containsSub descMarker (lcLower (pyStrip line)) = true →
    containsSub descMarker (pyStrip line) = true) ∧
  (containsSub tagsMarker (lcLower (pyStrip line)) = true →
    containsSub tagsMarker (pyStrip line) = true)

/-- A line carrying neither marker, even case-insensitively. -/
def noMarkerLine (line : List Char) : Prop :=
  containsSub descMarker (lcLower (pyStrip line)) = false ∧
  containsSub tagsMarker (lcLower (pyStrip line)) = false

instance (line : List Char) : Decidable (goodLine line) := by
  unfold goodLine
  exact inferInstance

instance (line : List Char) : Decidable (noMarkerLine line) := by
  unfold noMarkerLine
  exact inferInstance

theorem lcLower_descMarker : lcLower descMarker = descMarker := by decide

theorem lcLower_tagsMarker : lcLower tagsMarker = tagsMarker := by decide

theorem repairLinePiece_desc (line : List Char)
    (hlit : containsSub descMarker (pyStrip line) = true) :
    ∃ piece, repairLinePiece line = some piece ∧ canonDesc <+: piece := by
  have hlow : containsSub descMarker (lcLower (pyStrip line)) = true :=
    containsSub_lcLower _ _ lcLower_descMarker hlit
  have hcond : (descMarker.isPrefixOf (lcLower (pyStrip line)) ||
      containsSub descMarker (lcLower (pyStrip line))) = true := by
    rw [mark_or]
    exact hlow
  have hsome : (splitFirst descMarker (pyStrip line)).isSome = true := by
    rw [splitFirst_isSome]
    exact hlit
  obtain ⟨ab, hab⟩ := Option.isSome_iff_exists.mp hsome
  refine ⟨canonDesc ++ pyStrip ab.2 ++ ['\n'], ?_, ?_⟩
  · simp only [repairLinePiece, hcond, if_true, hab]
  · rw [List.append_assoc]
    exact List.prefix_append canonDesc _

theorem repairLinePiece_tags (line : List Char)
    (hnd : containsSub descMarker (lcLower (pyStrip line)) = false)
    (hlit : containsSub tagsMarker (pyStrip line) = true) :
    ∃ piece, repairLinePiece line = some piece ∧ canonTags <+: piece := by
  have hndp : descMarker.isPrefixOf (lcLower (pyStrip line)) = false := by
    cases hpp : descMarker.isPrefixOf (lcLower (pyStrip line)) with
    | false => rfl
    | true =>
      rw [isPrefixOf_imp_containsSub _ _ hpp] at hnd
      cases hnd
  have hcond1 : (descMarker.isPrefixOf (lcLower (pyStrip line)) ||
      containsSub descMarker (lcLower (pyStrip line))) = false := by
    rw [mark_or]
    exact hnd
  have hlow : containsSub tagsMarker (lcLower (pyStrip line)) = true :=
    containsSub_lcLower _ _ lcLower_tagsMarker hlit
  have hcond2 : (tagsMarker.isPrefixOf (lcLower (pyStrip line)) ||
      containsSub tagsMarker (lcLower (pyStrip line))) = true := by
    rw [mark_or]
    exact hlow
  have hsome : (splitFirst tagsMarker (pyStrip line)).isSome = true := by
    rw [splitFirst_isSome]
    exact hlit
  obtain ⟨ab, hab⟩ := Option.isSome_iff_exists.mp hsome
  refine ⟨canonTags ++ pyStrip ab.2, ?_, ?_⟩
  · simp only [repairLinePiece, hcond1, Bool.false_eq_true, if_false, hcond2, if_true, hab]
  · exact List.prefix_append canonTags _

theorem repairLinePiece_good (line : List Char) (h : goodLine line) :
    repairLinePiece line ≠ none := by
  by_cases hd : containsSub descMarker (lcLower (pyStrip line)) = true
  · obtain ⟨piece, hp, _⟩ := repairLinePiece_desc line (h.1 hd)
    simp [hp]
  · by_cases ht : containsSub tagsMarker (lcLower (pyStrip line)) = true
    · obtain ⟨piece, hp, _⟩ := repairLinePiece_tags line (by simpa using hd) (h.2 ht)
      simp [hp]
    · have hd' : containsSub descMarker (lcLower (pyStrip line)) = false := by simpa using hd
      have ht' : containsSub tagsMarker (lcLower (pyStrip line)) = false := by simpa using ht
      have hcond1 : (descMarker.isPrefixOf (lcLower (pyStrip line)) ||
          containsSub descMarker (lcLower (pyStrip line))) = false := by
        rw [mark_or]
        exact hd'
      have hcond2 : (tagsMarker.isPrefixOf (lcLower (pyStrip line)) ||
          containsSub tagsMarker (lcLower (pyStrip line))) = false := by
        rw [mark_or]
        exact ht'
      simp [repairLinePiece, hcond1, hcond2]

theorem repairLinePiece_noMarker (line : List Char) (h : noMarkerLine line) :
    repairLinePiece line = some [] := by
  have hcond1 : (descMarker.isPrefixOf (lcLower (pyStrip line)) ||
      containsSub descMarker (lcLower (pyStrip line))) = false := by
    rw [mark_or]
    exact h.1
  have hcond2 : (tagsMarker.isPrefixOf (lcLower (pyStrip line)) ||
      containsSub tagsMarker (lcLower (pyStrip line))) = false := by
    rw [mark_or]
    exact h.2
  simp [repairLinePiece, hcond1, hcond2]

theorem repairLines_extends : ∀ (ls : List (List Char)) (acc r : List Char),
    repairLines ls acc = some r → acc <+: r := by
  intro ls
  induction ls with
  | nil =>
    intro acc r h
    simp only [repairLines, Option.some.injEq] at h
    subst h
    exact List.prefix_refl acc
  | cons line rest ih =>
    intro acc r h
    simp only [repairLines] at h
    cases hp : repairLinePiece line with
    | none => rw [hp] at h; cases h
    | some piece =>
      rw [hp] at h
      exact (List.prefix_append acc piece).trans (ih _ _ h)

theorem repairLines_total : ∀ (ls : List (List Char)) (acc : List Char),
    (∀ line ∈ ls, goodLine line) → ∃ r, repairLines ls acc = some r := by
  intro ls
  induction ls with
  | nil =>
    intro acc _
    exact ⟨acc, rfl⟩
  | cons line rest ih =>
    intro acc h
    have hline := repairLinePiece_good line (h line (List.mem_cons_self line rest))
    cases hp : repairLinePiece line with
    | none => exact absurd hp hline
    | some piece =>
      obtain ⟨r, hr⟩ := ih (acc ++ piece) (fun l hl => h l (List.mem_cons_of_mem line hl))
      exact ⟨r, by simp only [repairLines, hp]; exact hr⟩

theorem repairLines_const_nil : ∀ (ls : List (List Char)) (acc : List Char),
    (∀ line ∈ ls, noMarkerLine line) → repairLines ls acc = some acc := by
  intro ls
  induction ls with
  | nil =>
    intro acc _
    rfl
  | cons line rest ih =>
    intro acc h
    have hp := repairLinePiece_noMarker line (h line (List.mem_cons_self line rest))
    simp only [repairLines, hp, List.append_nil]
    exact ih acc (fun l hl => h l (List.mem_cons_of_mem line hl))

theorem repairLines_carries (m : List Char) : ∀ (ls : List (List Char)) (acc r : List Char),
    (∃ line ∈ ls, ∃ piece, repairLinePiece line = some piece ∧ m <:+: piece) →
    repairLines ls acc = some r → m <:+: r := by
  intro ls
  induction ls with
  | nil =>
    intro acc r hex _
    obtain ⟨line, hmem, _⟩ := hex
    cases hmem
  | cons line rest ih =>
    intro acc r hex hrun
    simp only [repairLines] at hrun
    obtain ⟨l0, hmem, piece0, hp0, hm0⟩ := hex
    rcases List.mem_cons.mp hmem with h1 | h1
    · subst h1
      rw [hp0] at hrun
      have hpre : acc ++ piece0 <+: r := repairLines_extends rest _ r hrun
      have : m <:+: acc ++ piece0 := hm0.trans (List.suffix_append acc piece0).isInfix
      exact this.trans hpre.isInfix
    · cases hp : repairLinePiece line with
      | none => rw [hp] at hrun; cases hrun
      | some piece =>
        rw [hp] at hrun
        exact ih _ r ⟨l0, h1, piece0, hp0, hm0⟩ hrun

/-! ## Claims C2 and C6: the repair step -/

def txtNoColon : List Char := "description x\ntags y".data

def txtUpperMarkers : List Char := "DESCRIPTION: x\nTAGS: y".data

def txtLowGood : List Char := "my description: a cat\nmy tags: [cat]".data

def txtPlain : List Char := "hello world".data

def nameVid : String := "v.mp4"

/-- Claim C6 counterexample: the response `"description x\ntags y"` lacks the
literal substrings `Description:`/`Tags:` and its lines contain the words
`description` and `tags` case-insensitively, yet the repair step returns the
text unchanged and the result contains neither canonical marker
`- Description:` nor `- Tags:` — the claim as stated is false on the code. -/
theorem claim6_counterexample :
    containsSub mDescC txtNoColon = false ∧ containsSub mTagsC txtNoColon = false ∧
    containsSub wDesc (lcLower txtNoColon) = true ∧
    containsSub wTags (lcLower txtNoColon) = true ∧
    repairText txtNoColon = some txtNoColon ∧
    containsSub canonDesc txtNoColon = false ∧ containsSub canonTags txtNoColon = false := by
  decide

/-- Claim C6 (amended): for every response text lacking the literal
substrings `Description:` and `Tags:`, if some line carries the literal
lowercase marker `description:`, some line carries the literal lowercase
marker `tags:` without any case-insensitive `description:` match, and every
case-insensitive marker match on a line is backed by the literal lowercase
marker (so the case-sensitive `split` cannot raise), then the repair step
succeeds and produces a text containing both canonical markers
`- Description:` and `- Tags:`. -/
theorem claim6_amended (text : List Char)
    (hD : containsSub mDescC text = false) (_hT : containsSub mTagsC text = false)
    (hd : ∃ line ∈ splitOnNL text, containsSub descMarker (pyStrip line) = true)
    (ht : ∃ line ∈ splitOnNL text,
      containsSub descMarker (lcLower (pyStrip line)) = false ∧
      containsSub tagsMarker (pyStrip line) = true)
    (hgood : ∀ line ∈ splitOnNL text, goodLine line) :
    ∃ t2, repairText text = some t2 ∧
      containsSub canonDesc t2 = true ∧ containsSub canonTags t2 = true := by
  obtain ⟨lineD, hmemD, hlitD⟩ := hd
  obtain ⟨lineT, hmemT, hndT, hlitT⟩ := ht
  have hfirst : (containsSub mDescC text && containsSub mTagsC text) = false := by
    rw [hD]
    rfl
  have hwd : containsSub wDesc (lcLower text) = true := by
    have c1 : wDesc <:+: descMarker := (containsSub_iff wDesc descMarker).mp (by decide)
    have c2 : descMarker <:+: pyStrip lineD := (containsSub_iff _ _).mp hlitD
    have c3 : pyStrip lineD <:+: lineD := pyStrip_isInfix lineD
    have c4 : lineD <:+: text := (splitOnNL_spec text).2 lineD hmemD
    have : wDesc <:+: text := ((c1.trans c2).trans c3).trans c4
    have hw : wDesc <:+: lcLower text := by
      have hm := this.map Char.toLower
      rwa [show wDesc.map Char.toLower = wDesc from by decide] at hm
    exact (containsSub_iff _ _).mpr hw
  have hwt : containsSub wTags (lcLower text) = true := by
    have c1 : wTags <:+: tagsMarker := (containsSub_iff wTags tagsMarker).mp (by decide)
    have c2 : tagsMarker <:+: pyStrip lineT := (containsSub_iff _ _).mp hlitT
    have c3 : pyStrip lineT <:+: lineT := pyStrip_isInfix lineT
    have c4 : lineT <:+: text := (splitOnNL_spec text).2 lineT hmemT
    have : wTags <:+: text := ((c1.trans c2).trans c3).trans c4
    have hw : wTags <:+: lcLower text := by
      have hm := this.map Char.toLower
      rwa [show wTags.map Char.toLower = wTags from by decide] at hm
    exact (containsSub_iff _ _).mpr hw
  have hpre : (containsSub wDesc (lcLower text) && containsSub wTags (lcLower text)) = true := by
    rw [hwd, hwt]
    rfl
  obtain ⟨r, hr⟩ := repairLines_total (splitOnNL text) [] hgood
  obtain ⟨pieceD, hpD, hprD⟩ := repairLinePiece_desc lineD hlitD
  obtain ⟨pieceT, hpT, hprT⟩ := repairLinePiece_tags lineT hndT hlitT
  have hcd : canonDesc <:+: r :=
    repairLines_carries canonDesc (splitOnNL text) [] r
      ⟨lineD, hmemD, pieceD, hpD, hprD.isInfix⟩ hr
  have hct : canonTags <:+: r :=
    repairLines_carries canonTags (splitOnNL text) [] r
      ⟨lineT, hmemT, pieceT, hpT, hprT.isInfix⟩ hr
  have hne : r.isEmpty = false := by
    cases hre : r with
    | nil =>
      rw [hre] at hcd
      have : canonDesc = [] := List.eq_nil_of_infix_nil hcd
      cases this
    | cons a as => rfl
  refine ⟨r, ?_, (containsSub_iff _ _).mpr hcd, (containsSub_iff _ _).mpr hct⟩
  simp only [repairText, hfirst, Bool.false_eq_true, if_false, hpre, if_true, hr, hne]

/-- Claim C2 counterexample: the non-empty response
`"DESCRIPTION: x\nTAGS: y"` lacks both literal substrings `Description:`
and `Tags:`; the repair block matches its lines case-insensitively but the
case-sensitive `line.split("description:", 1)[1]` finds no occurrence and
raises `IndexError` (modelled by `none`), so the generation loop treats the
malformed-but-present response as a retryable error and, after exhausting
retries, converts it into a per-file error result — contradicting the
claim's "in no case" clause. -/
theorem claim2_counterexample :
    txtUpperMarkers ≠ [] ∧
    containsSub mDescC txtUpperMarkers = false ∧
    containsSub mTagsC txtUpperMarkers = false ∧
    repairText txtUpperMarkers = none ∧
    genLoop nameVid (fun _ => GenOutcome.reply txtUpperMarkers) 3 =
      mkError nameVid errIndexMsg := by
  decide

/-- Claim C2 (amended): for a non-empty response lacking both literal
substrings `Description:` and `Tags:`: the repair is attempted only when the
text also contains the colon-less words `description` and `tags`
case-insensitively, and otherwise the text is accepted as-is; when every
case-insensitive marker match on a line is backed by the literal lowercase
marker, the repair never raises and some (possibly repaired) text is
accepted; when no line carries any marker case-insensitively, the text is
accepted as-is.  (A line matching a marker only case-insensitively makes
`line.split(marker, 1)[1]` raise, which the enclosing handler treats as a
retryable error.) -/
theorem claim2_amended (text : List Char)
    (h1 : ¬(containsSub mDescC text = true ∧ containsSub mTagsC text = true)) :
    ((containsSub wDesc (lcLower text) = false ∨ containsSub wTags (lcLower text) = false) →
      repairText text = some text) ∧
    ((∀ line ∈ splitOnNL text, goodLine line) → ∃ t2, repairText text = some t2) ∧
    ((∀ line ∈ splitOnNL text, noMarkerLine line) → repairText text = some text) := by
  have hfirst : (containsSub mDescC text && containsSub mTagsC text) = false := by
    cases hA : containsSub mDescC text with
    | false => rfl
    | true =>
      cases hB : containsSub mTagsC text with
      | false => rfl
      | true => exact absurd ⟨hA, hB⟩ h1
  refine ⟨?_, ?_, ?_⟩
  · intro hpre
    have hsec : (containsSub wDesc (lcLower text) &&
        containsSub wTags (lcLower text)) = false := by
      rcases hpre with h | h
      · rw [h]
        rfl
      · rw [h]
        exact Bool.and_false _
    simp only [repairText, hfirst, Bool.false_eq_true, if_false, hsec]
  · intro hgood
    cases hsec : (containsSub wDesc (lcLower text) &&
        containsSub wTags (lcLower text)) with
    | false =>
      refine ⟨text, ?_⟩
      simp only [repairText, hfirst, Bool.false_eq_true, if_false, hsec]
    | true =>
      obtain ⟨r, hr⟩ := repairLines_total (splitOnNL text) [] hgood
      refine ⟨if r.isEmpty then text else r, ?_⟩
      simp only [repairText, hfirst, Bool.false_eq_true, if_false, hsec, if_true, hr]
  · intro hnm
    have hr := repairLines_const_nil (splitOnNL text) [] hnm
    cases hsec : (containsSub wDesc (lcLower text) &&
        containsSub wTags (lcLower text)) with
    | false =>
      simp only [repairText, hfirst, Bool.false_eq_true, if_false, hsec]
    | true =>
      simp only [repairText, hfirst, Bool.false_eq_true, if_false, hsec, if_true, hr,
        List.isEmpty_nil, if_true]

/-- Witness for the amended C2 at a concrete malformed text without any
marker words: it is accepted as-is. -/
theorem claim2_witness : repairText txtPlain = some txtPlain :=
  (claim2_amended txtPlain (by decide)).1 (Or.inl (by decide))

/-- Witness for the amended C6 at a concrete response whose markers occur in
literal lowercase form. -/
theorem claim6_witness :
    ∃ t2, repairText txtLowGood = some t2 ∧
      containsSub canonDesc t2 = true ∧ containsSub canonTags t2 = true :=
  claim6_amended txtLowGood (by decide) (by decide) (by decide) (by decide) (by decide)

/-! ## Claim C3: the tabular formatter on the concrete example -/

def fnOne : String := "f1.mp4"

def fnTwo : String := "f2.mp4"

def msgTimeout : String := "timeout"

def respLake : List Char := "- Description: A calm lake.\n- Tags: [calm, lake, nature]".data

/-- Claim C3: on a list holding one success whose response is the two
canonical lines for the calm-lake example and one error result with message
"timeout", the tabular formatter emits the header row
`Filename, Description, Tags` followed by exactly the two data rows
`(f1.mp4, A calm lake., [calm, lake, nature])` and
`(f2.mp4, ERROR: timeout, empty)`. -/
theorem claim3_formatter_rows :
    formatCsv [mkSuccess fnOne respLake, mkError fnTwo msgTimeout] =
      [["Filename".data, "Description".data, "Tags".data],
       [fnOne.data, "A calm lake.".data, "[calm, lake, nature]".data],
       [fnTwo.data, "ERROR: timeout".data, []]] := by
  decide

/-! ## Claim C5: the file validator -/

def wVideo : List Char := "video".data

def mimeMp4 : List Char := "video/mp4".data

def pMimeVideo : PathInfo :=
  { pathExists := true, isFile := true, size := 100, suffix := ".mp4".data,
    mime := some wVideo, name := "a.mp4" }

def pGoodMp4 : PathInfo :=
  { pathExists := true, isFile := true, size := 100, suffix := ".mp4".data,
    mime := some mimeMp4, name := "a.mp4" }

/-- Claim C5 counterexample: a path that exists, is a regular file, has 100
bytes, extension `.mp4`, and guessable media type exactly `"video"` — which
does start with `"video"` — is rejected by the validator, because the code
tests the prefix `"video/"`, not `"video"`; the claim's "returns true
otherwise" direction is therefore false as stated. -/
theorem claim5_counterexample :
    (pMimeVideo.pathExists = true ∧ pMimeVideo.isFile = true ∧
     ¬(pMimeVideo.size < 10) ∧
     videoExtensionsL.contains (lcLower pMimeVideo.suffix) = true ∧
     pMimeVideo.mime = some wVideo ∧ wVideo.isPrefixOf wVideo = true) ∧
    isValidVideoFile pMimeVideo 10 = false := by
  decide

/-- Claim C5 (amended): `isValidVideoFile p minSizeBytes` returns true
exactly when the path exists, is a regular file, has size at least
`minSizeBytes`, has an extension whose lowercase form is in the allow-list,
and any guessable media type starts with `"video/"` (not merely `"video"`);
the function is total, so no exception escapes. -/
theorem claim5_validator (p : PathInfo) (minSizeBytes : Nat) :
    isValidVideoFile p minSizeBytes = true ↔
      (p.pathExists = true ∧ p.isFile = true ∧ minSizeBytes ≤ p.size ∧
       videoExtensionsL.contains (lcLower p.suffix) = true ∧
       (∀ m, p.mime = some m → videoSlash.isPrefixOf m = true)) := by
  rcases p with ⟨pe, pf, sz, sfx, mi, nm⟩
  cases pe with
  | false => simp [isValidVideoFile]
  | true =>
    cases pf with
    | false => simp [isValidVideoFile]
    | true =>
      by_cases hs : sz < minSizeBytes
      · have hle : ¬ minSizeBytes ≤ sz := by omega
        simp [isValidVideoFile, hs, hle]
      · have hle : minSizeBytes ≤ sz := by omega
        by_cases hc : videoExtensionsL.contains (lcLower sfx) = true
        · cases mi with
          | none => simp [isValidVideoFile, hs, hc, hle]
          | some m =>
            by_cases hm : videoSlash.isPrefixOf m = true
            · simp [isValidVideoFile, hs, hc, hle, hm]
              intro _
              exact List.isPrefixOf_iff_prefix.mp hm
            · have hm' : videoSlash.isPrefixOf m = false := by
                cases hmm : videoSlash.isPrefixOf m with
                | false => rfl
                | true => exact absurd hmm hm
              simp [isValidVideoFile, hs, hc, hle, hm']
              intro _ hpre
              exact hm ( List.isPrefixOf_iff_prefix.mpr hpre)
        · have hnm : lcLower sfx ∉ videoExtensionsL := by
            intro hmem
            exact hc (List.elem_eq_true_of_mem hmem)
          simp [isValidVideoFile, hnm]

/-- Witness for the amended C5: a well-formed `.mp4` with media type
`video/mp4` validates. -/
theorem claim5_witness : isValidVideoFile pGoodMp4 10 = true :=
  (claim5_validator pGoodMp4 10).mpr
    ⟨rfl, rfl, by decide, by decide, by
      intro m hm
      cases hm
      decide⟩

/-! ## Claim C7: the upload retry loop -/

theorem uploadAux_none (attempts : Nat → Option String) :
    ∀ (fuel i : Nat), (∀ j, j < fuel → attempts (i + j) = none) →
      uploadAux attempts fuel i = none := by
  intro fuel
  induction fuel with
  | zero =>
    intro i _
    rfl
  | succ f ih =>
    intro i h
    have h0 : attempts i = none := by
      have := h 0 (Nat.succ_pos f)
      simpa using this
    simp only [uploadAux, h0]
    exact ih (i + 1) (fun j hj => by
      have := h (j + 1) (by omega)
      rwa [show i + (j + 1) = i + 1 + j by omega] at this)

theorem uploadAux_succeeds (attempts : Nat → Option String) :
    ∀ (fuel i k : Nat) (h : String), k < fuel → attempts (i + k) = some h →
      (∀ j, j < k → attempts (i + j) = none) → uploadAux attempts fuel i = some h := by
  intro fuel
  induction fuel with
  | zero =>
    intro i k h hk
    omega
  | succ f ih =>
    intro i k h hk hsome hnone
    cases k with
    | zero =>
      have h0 : attempts i = some h := by simpa using hsome
      simp only [uploadAux, h0]
    | succ k2 =>
      have h0 : attempts i = none := by
        have := hnone 0 (Nat.succ_pos k2)
        simpa using this
      simp only [uploadAux, h0]
      refine ih (i + 1) k2 h (by omega) ?_ ?_
      · rwa [show i + 1 + k2 = i + (k2 + 1) by omega]
      · intro j hj
        have := hnone (j + 1) (by omega)
        rwa [show i + (j + 1) = i + 1 + j by omega] at this

theorem uploadAux_congr (a1 a2 : Nat → Option String) :
    ∀ (fuel i : Nat), (∀ j, j < fuel → a1 (i + j) = a2 (i + j)) →
      uploadAux a1 fuel i = uploadAux a2 fuel i := by
  intro fuel
  induction fuel with
  | zero =>
    intro i _
    rfl
  | succ f ih =>
    intro i h
    have h0 : a1 i = a2 i := by
      have := h 0 (Nat.succ_pos f)
      simpa using this
    simp only [uploadAux, h0]
    cases a2 i with
    | some x => rfl
    | none =>
      exact ih (i + 1) (fun j hj => by
        have := h (j + 1) (by omega)
        rwa [show i + (j + 1) = i + 1 + j by omega] at this)

/-- Claim C7: the upload loop tries the remote operation up to
`maxRetries + 1` times in total; if every allowed try raises, it returns a
failure (`none`) instead of raising; the first successful try returns the
remote handle immediately; and the outcome never depends on hypothetical
tries beyond index `maxRetries`. -/
theorem claim7_upload_retries (attempts : Nat → Option String) (maxRetries : Nat) :
    ((∀ i, i ≤ maxRetries → attempts i = none) →
      uploadVideo attempts maxRetries = none) ∧
    (∀ k h, k ≤ maxRetries → attempts k = some h → (∀ j, j < k → attempts j = none) →
      uploadVideo attempts maxRetries = some h) ∧
    (∀ attempts2 : Nat → Option String, (∀ i, i ≤ maxRetries → attempts i = attempts2 i) →
      uploadVideo attempts maxRetries = uploadVideo attempts2 maxRetries) := by
  refine ⟨?_, ?_, ?_⟩
  · intro h
    exact uploadAux_none attempts (maxRetries + 1) 0 (fun j hj => by
      have := h j (by omega)
      simpa using this)
  · intro k h hk hsome hnone
    exact uploadAux_succeeds attempts (maxRetries + 1) 0 k h (by omega)
      (by simpa using hsome) (fun j hj => by simpa using hnone j hj)
  · intro a2 h
    exact uploadAux_congr attempts a2 (maxRetries + 1) 0 (fun j hj => by
      have := h j (by omega)
      simpa using this)

def handleOne : String := "files/abc"

/-- Witness for C7: with the first try failing and the second succeeding,
the loop returns the handle of the second try. -/
theorem claim7_witness :
    uploadVideo (fun i => if i = 1 then some handleOne else none) 3 = some handleOne :=
  (claim7_upload_retries (fun i => if i = 1 then some handleOne else none) 3).2.1
    1 handleOne (by decide) (by decide) (by decide)

/-! ## Claim C8: backoff growth -/

/-- Claim C8: with any base delay at least 1 (the source uses 2), the upload
backoff `baseDelay * 2 ^ n + jitter` with jitter drawn from `[0, 1)` is
strictly increasing in the attempt index and is always at least
`baseDelay * 2 ^ n`. -/
theorem claim8_backoff (base : ℚ) (hb : 1 ≤ base) (n m : Nat) (hnm : n < m)
    (j j2 : ℚ) (hj0 : 0 ≤ j) (hj1 : j < 1) (hk0 : 0 ≤ j2) (_hk1 : j2 < 1) :
    uploadBackoffDelay base n j < uploadBackoffDelay base m j2 ∧
    base * 2 ^ n ≤ uploadBackoffDelay base n j := by
  unfold uploadBackoffDelay
  constructor
  · have h2 : (2:ℚ) ^ (n + 1) ≤ 2 ^ m := by
      apply pow_le_pow_right₀ (by norm_num)
      omega
    have h1 : (1:ℚ) ≤ 2 ^ n := by
      have := pow_le_pow_right₀ (by norm_num : (1:ℚ) ≤ 2) (Nat.zero_le n)
      simpa using this
    have hbase0 : (0:ℚ) ≤ base := le_trans zero_le_one hb
    have hmul : base * 2 ^ (n + 1) ≤ base * 2 ^ m :=
      mul_le_mul_of_nonneg_left h2 hbase0
    have heq : base * 2 ^ (n + 1) = 2 * (base * 2 ^ n) := by ring
    have hg1 : (1:ℚ) ≤ base * 2 ^ n := by nlinarith
    linarith
  · linarith

/-- Witness for C8 at the source's base delay 2, attempts 0 and 1, and
jitter 0. -/
theorem claim8_witness :
    uploadBackoffDelay 2 0 0 < uploadBackoffDelay 2 1 0 ∧
    (2:ℚ) * 2 ^ (0:ℕ) ≤ uploadBackoffDelay 2 0 0 :=
  claim8_backoff 2 (by decide) 0 1 (by decide) 0 0 (by decide) (by decide)
    (by decide) (by decide)

/-! ## Claim C4: the readiness poller -/

/-- The terminal outcome the loop produces at its first non-continuing
iteration. -/
def pollTerminal (maxWait : ℚ) (p : ℚ × PollStep) : PollResult :=
  if maxWait < p.1 then PollResult.timeout
  else
    match p.2 with
    | PollStep.exn m => PollResult.queryError m
    | PollStep.ok st h =>
      if st = stACTIVE then PollResult.success h else PollResult.procFailed

theorem waitReady_eq_dropWhile (mw : ℚ) : ∀ tr : List (ℚ × PollStep),
    waitReady mw tr =
      match tr.dropWhile (pollContinues mw) with
      | [] => PollResult.diverged
      | p :: _ => pollTerminal mw p := by
  intro tr
  induction tr with
  | nil => rfl
  | cons p rest ih =>
    rcases p with ⟨e, step⟩
    by_cases ht : mw < e
    · have hcont : pollContinues mw (e, step) = false := by
        simp [pollContinues, ht]
      rw [List.dropWhile_cons_of_neg (by simp [hcont])]
      simp [waitReady, pollTerminal, ht]
    · cases step with
      | exn m =>
        have hcont : pollContinues mw (e, PollStep.exn m) = false := by
          simp [pollContinues]
        rw [List.dropWhile_cons_of_neg (by simp [hcont])]
        simp [waitReady, pollTerminal, ht]
      | ok st h =>
        by_cases hA : st = stACTIVE
        · have hcont : pollContinues mw (e, PollStep.ok st h) = false := by
            simp [pollContinues, hA]
          rw [List.dropWhile_cons_of_neg (by simp [hcont])]
          simp [waitReady, pollTerminal, ht, hA]
        · by_cases hF : st = stFAILED
          · have hcont : pollContinues mw (e, PollStep.ok st h) = false := by
              simp [pollContinues, hF]
            rw [List.dropWhile_cons_of_neg (by simp [hcont])]
            simp [waitReady, pollTerminal, ht, hA, hF]
          · have hcont : pollContinues mw (e, PollStep.ok st h) = true := by
              simp [pollContinues, ht, hA, hF]
            rw [List.dropWhile_cons_of_pos (by simp [hcont])]
            have hlhs : waitReady mw ((e, PollStep.ok st h) :: rest) = waitReady mw rest := by
              simp [waitReady, ht, hA, hF]
            rw [hlhs, ih]

/-- Claim C4: the poller times out exactly when the elapsed wall-clock time
at the head of the first non-continuing iteration exceeds `maxWait`, the
timeout check coming before the remote query and overriding any reported
state; in time, an `ACTIVE` state returns the refreshed handle, a `FAILED`
state fails immediately, and a query exception fails immediately with no
retry; the success result arises only from an in-time `ACTIVE` report. -/
theorem claim4_poller (mw : ℚ) :
    (∀ (e : ℚ) (step : PollStep) (rest : List (ℚ × PollStep)), mw < e →
      waitReady mw ((e, step) :: rest) = PollResult.timeout) ∧
    (∀ (e : ℚ) (h : String) (rest : List (ℚ × PollStep)), ¬ mw < e →
      waitReady mw ((e, PollStep.ok stACTIVE h) :: rest) = PollResult.success h) ∧
    (∀ (e : ℚ) (h : String) (rest : List (ℚ × PollStep)), ¬ mw < e →
      waitReady mw ((e, PollStep.ok stFAILED h) :: rest) = PollResult.procFailed) ∧
    (∀ (e : ℚ) (m : String) (rest : List (ℚ × PollStep)), ¬ mw < e →
      waitReady mw ((e, PollStep.exn m) :: rest) = PollResult.queryError m) ∧
    (∀ tr : List (ℚ × PollStep), waitReady mw tr = PollResult.timeout ↔
      ∃ p rest, tr.dropWhile (pollContinues mw) = p :: rest ∧ mw < p.1) ∧
    (∀ (tr : List (ℚ × PollStep)) (h : String),
      waitReady mw tr = PollResult.success h ↔
      ∃ p rest, tr.dropWhile (pollContinues mw) = p :: rest ∧ ¬ mw < p.1 ∧
        p.2 = PollStep.ok stACTIVE h) := by
  refine ⟨?_, ?_, ?_, ?_, ?_, ?_⟩
  · intro e step rest ht
    simp [waitReady, ht]
  · intro e h rest ht
    simp [waitReady, ht]
  · intro e h rest ht
    have hne : stFAILED ≠ stACTIVE := by decide
    simp [waitReady, ht, hne]
  · intro e m rest ht
    simp [waitReady, ht]
  · intro tr
    rw [waitReady_eq_dropWhile]
    cases hdw : tr.dropWhile (pollContinues mw) with
    | nil => simp
    | cons p rest =>
      rcases p with ⟨e, step⟩
      by_cases ht : mw < e
      · simp [pollTerminal, ht]
      · cases step with
        | exn m => simp [pollTerminal, ht]
        | ok st h =>
          by_cases hA : st = stACTIVE
          · simp [pollTerminal, ht, hA]
          · simp [pollTerminal, ht, hA]
  · intro tr h
    rw [waitReady_eq_dropWhile]
    cases hdw : tr.dropWhile (pollContinues mw) with
    | nil => simp
    | cons p rest =>
      rcases p with ⟨e, step⟩
      by_cases ht : mw < e
      · simp [pollTerminal, ht]
      · cases step with
        | exn m => simp [pollTerminal, ht]
        | ok st h2 =>
          by_cases hA : st = stACTIVE
          · subst hA
            simp only [pollTerminal, ht, if_false, if_true]
            constructor
            · intro hh
              refine ⟨(e, PollStep.ok stACTIVE h2), rest, rfl, ht, ?_⟩
              have hh2 : h2 = h := by injection hh
              rw [hh2]
            · rintro ⟨p2, rest2, heq, _, hstep⟩
              have hp : p2 = (e, PollStep.ok stACTIVE h2) := by
                injection heq with a b
                exact a.symm
              subst hp
              simp only at hstep
              have hh2 : h2 = h := by injection hstep
              rw [hh2]
          · simp only [pollTerminal, ht, if_false, hA]
            constructor
            · intro hh
              cases hh
            · rintro ⟨p2, rest2, heq, _, hstep⟩
              have hp : p2 = (e, PollStep.ok st h2) := by
                injection heq with a b
                exact a.symm
              subst hp
              simp only at hstep
              injection hstep with hst hhh
              exact absurd hst hA

def msgBoom : String := "boom"

/-- Witness for C4: an iteration starting past the deadline times out
regardless of its query outcome. -/
theorem claim4_witness :
    waitReady 600 [((700:ℚ), PollStep.exn msgBoom)] = PollResult.timeout :=
  (claim4_poller 600).1 700 (PollStep.exn msgBoom) [] (by decide)

/-! ## Claims C1, C9 and C10: the batch orchestrator -/

theorem prevFromRows_eq : ∀ rows : List (List String),
    prevFromRows rows =
      ((rows.filter rowOkB).map (fun r => r.getD 0 emptyStr),
       (rows.filter rowOkB).map reconstitute) := by
  intro rows
  induction rows with
  | nil => rfl
  | cons row rest ih =>
    cases h1 : (decide (3 ≤ row.length) && !(row.getD 0 emptyStr).isEmpty) with
    | false =>
      have hok : rowOkB row = false := by
        simp only [rowOkB, h1, Bool.false_and]
      simp only [prevFromRows, h1, Bool.false_eq_true, if_false, List.filter_cons,
        hok, ih]
    | true =>
      cases h2 : (!(row.getD 1 emptyStr).isEmpty && !(row.getD 2 emptyStr).isEmpty) with
      | false =>
        have hok : rowOkB row = false := by
          simp only [rowOkB, h1, h2, Bool.true_and]
        simp only [prevFromRows, h1, h2, Bool.false_eq_true, if_true, if_false,
          List.filter_cons, hok, ih]
      | true =>
        have hok : rowOkB row = true := by
          simp only [rowOkB, h1, h2, Bool.and_self]
        simp only [prevFromRows, h1, h2, if_true, List.filter_cons, hok, ih,
          List.map_cons]

theorem previousOf_resume (rows : List (List String)) :
    previousOf false (some rows) = prevFromRows rows := rfl

/-- Claim C1: in a directory batch with `forceRetry = false` and a prior
tabular file present, every accepted row (at least three cells; filename,
description and tags non-empty) removes all directory entries carrying that
filename from the to-process list, its reconstituted result (stored
description and tags re-emitted in the canonical two-line template) appears
in the returned list, and the returned list is exactly the fresh results of
the remaining files — a sublist of the enumeration, in enumeration order —
followed by the reconstituted results in row order. -/
theorem claim1_resume_skips_and_order (analyze : DirEntry → AnalysisResult)
    (entries : List DirEntry) (rows : List (List String)) (specific : Option String)
    (row : List String) (hrow : row ∈ rows) (hok : rowOkB row = true) :
    (∀ e ∈ entries, e.name = row.getD 0 emptyStr →
        e ∉ remainingFiles entries false (some rows) specific) ∧
    reconstitute row ∈ processDir analyze entries false (some rows) specific ∧
    processDir analyze entries false (some rows) specific =
      (remainingFiles entries false (some rows) specific).map analyze ++
        (rows.filter rowOkB).map reconstitute ∧
    List.Sublist (remainingFiles entries false (some rows) specific) entries := by
  have hnames : (previousOf false (some rows)).1 =
      (rows.filter rowOkB).map (fun r => r.getD 0 emptyStr) := by
    rw [previousOf_resume, prevFromRows_eq]
  have hres : (previousOf false (some rows)).2 =
      (rows.filter rowOkB).map reconstitute := by
    rw [previousOf_resume, prevFromRows_eq]
  have hmemf : row ∈ rows.filter rowOkB := List.mem_filter.mpr ⟨hrow, hok⟩
  have hname_mem : row.getD 0 emptyStr ∈ (previousOf false (some rows)).1 := by
    rw [hnames]
    exact List.mem_map.mpr ⟨row, hmemf, rfl⟩
  refine ⟨?_, ?_, ?_, ?_⟩
  · intro e he hname hmem
    have hne : ((previousOf false (some rows)).1).isEmpty = false := by
      cases hprev : (previousOf false (some rows)).1 with
      | nil => rw [hprev] at hname_mem; cases hname_mem
      | cons a as => rfl
    simp only [remainingFiles, hne, Bool.false_eq_true, if_false] at hmem
    have hcond := (List.mem_filter.mp hmem).2
    rw [hname] at hcond
    have : (previousOf false (some rows)).1.contains (row.getD 0 emptyStr) = true :=
      List.elem_eq_true_of_mem hname_mem
    rw [this] at hcond
    cases hcond
  · unfold processDir
    refine List.mem_append_right _ ?_
    rw [hres]
    exact List.mem_map.mpr ⟨row, hmemf, rfl⟩
  · unfold processDir
    rw [hres]
  · have hvf : List.Sublist (collectVideoFiles entries specific) entries :=
      List.filter_sublist entries
    cases hp : ((previousOf false (some rows)).1).isEmpty with
    | true =>
      simp only [remainingFiles, hp, if_true]
      exact hvf
    | false =>
      simp only [remainingFiles, hp, Bool.false_eq_true, if_false]
      exact (List.filter_sublist (collectVideoFiles entries specific)).trans hvf

def entryV1 : DirEntry := { dir := [], name := "video1.mp4", suffix := ".mp4".data }

def entryV2 : DirEntry := { dir := [], name := "video2.mp4", suffix := ".mp4".data }

def rowV1 : List String := ["video1.mp4", "A dog.", "[dog]"]

/-- Witness for C1 on the spec's own example: `video1.mp4` has a fully
populated prior row, `video2.mp4` does not. -/
theorem claim1_witness :
    (∀ e ∈ [entryV1, entryV2], e.name = rowV1.getD 0 emptyStr →
        e ∉ remainingFiles [entryV1, entryV2] false (some [rowV1]) none) ∧
    reconstitute rowV1 ∈
      processDir (fun e => mkSuccess e.name []) [entryV1, entryV2] false
        (some [rowV1]) none ∧
    processDir (fun e => mkSuccess e.name []) [entryV1, entryV2] false
        (some [rowV1]) none =
      (remainingFiles [entryV1, entryV2] false (some [rowV1]) none).map
          (fun e => mkSuccess e.name []) ++
        ([rowV1].filter rowOkB).map reconstitute ∧
    List.Sublist (remainingFiles [entryV1, entryV2] false (some [rowV1]) none)
      [entryV1, entryV2] :=
  claim1_resume_skips_and_order (fun e => mkSuccess e.name []) [entryV1, entryV2]
    [rowV1] none rowV1 (by decide) (by decide)

/-- Claim C9: every analysis record carries a filename together with exactly
one of a response or an error — the per-file pipeline is total and returns
such a record in every branch, and every element of a batch run's output
(fresh or reconstituted) is such a record, with one output entry per
remaining file plus one per reconstituted row, so no failing file loses its
entry. -/
theorem claim9_result_invariant :
    (∀ (info : PathInfo) (remote : Remote) (maxRetries : Nat),
      exactlyOne (analyzeVideo info remote maxRetries)) ∧
    (∀ (world : DirEntry → PathInfo × Remote) (entries : List DirEntry)
        (forceRetry : Bool) (csvRows : Option (List (List String)))
        (specific : Option String),
      (∀ r ∈ processDir (fun e => analyzeVideo (world e).1 (world e).2 3)
          entries forceRetry csvRows specific, exactlyOne r) ∧
      (processDir (fun e => analyzeVideo (world e).1 (world e).2 3)
          entries forceRetry csvRows specific).length =
        (remainingFiles entries forceRetry csvRows specific).length +
          (previousOf forceRetry csvRows).2.length) := by
  have hgen : ∀ (name : String) (attempts : Nat → GenOutcome) (fuel i : Nat),
      exactlyOne (genLoopAux name attempts fuel i) := by
    intro name attempts fuel
    induction fuel with
    | zero =>
      intro i
      exact Or.inr ⟨rfl, rfl⟩
    | succ f ih =>
      intro i
      simp only [genLoopAux]
      cases attempts i with
      | exn msg =>
        by_cases hf : f = 0
        · simp only [hf, if_true]
          exact Or.inr ⟨rfl, rfl⟩
        · simp only [hf, if_false]
          exact ih (i + 1)
      | reply t =>
        by_cases he : (pyStrip t).isEmpty = true
        · simp only [he, if_true]
          by_cases hf : f = 0
          · simp only [hf, if_true]
            exact Or.inr ⟨rfl, rfl⟩
          · simp only [hf, if_false]
            exact ih (i + 1)
        · have he' : (pyStrip t).isEmpty = false := by
            cases hee : (pyStrip t).isEmpty with
            | false => rfl
            | true => exact absurd hee he
          simp only [he', Bool.false_eq_true, if_false]
          cases repairText (pyStrip t) with
          | none =>
            by_cases hf : f = 0
            · simp only [hf, if_true]
              exact Or.inr ⟨rfl, rfl⟩
            · simp only [hf, if_false]
              exact ih (i + 1)
          | some t2 => exact Or.inl ⟨rfl, rfl⟩
  have hana : ∀ (info : PathInfo) (remote : Remote) (maxRetries : Nat),
      exactlyOne (analyzeVideo info remote maxRetries) := by
    intro info remote maxRetries
    unfold analyzeVideo
    by_cases hv : (!isValidVideoFile info 10) = true
    · simp only [hv, if_true]
      exact Or.inr ⟨rfl, rfl⟩
    · have hv' : (!isValidVideoFile info 10) = false := by
        cases hvv : (!isValidVideoFile info 10) with
        | false => rfl
        | true => exact absurd hvv hv
      simp only [hv', Bool.false_eq_true, if_false]
      cases remote.uploadResult with
      | none => exact Or.inr ⟨rfl, rfl⟩
      | some u =>
        cases remote.waitResult with
        | none => exact Or.inr ⟨rfl, rfl⟩
        | some w =>
          show exactlyOne (genLoop info.name remote.gen maxRetries)
          exact hgen info.name remote.gen (maxRetries + 1) 0
  have hprev : ∀ (rows : List (List String)) (r : AnalysisResult),
      r ∈ (prevFromRows rows).2 → exactlyOne r := by
    intro rows
    rw [prevFromRows_eq]
    intro r hr
    obtain ⟨row, _, hrow⟩ := List.mem_map.mp hr
    rw [← hrow]
    exact Or.inl ⟨rfl, rfl⟩
  refine ⟨hana, ?_⟩
  intro world entries forceRetry csvRows specific
  constructor
  · intro r hr
    unfold processDir at hr
    rcases List.mem_append.mp hr with hr | hr
    · obtain ⟨e, _, he⟩ := List.mem_map.mp hr
      rw [← he]
      exact hana (world e).1 (world e).2 3
    · unfold previousOf at hr
      cases forceRetry with
      | true => cases hr
      | false =>
        cases csvRows with
        | none => cases hr
        | some rows => exact hprev rows r hr
  · unfold processDir
    rw [List.length_append, List.length_map]

def remoteNoUpload : Remote :=
  ⟨none, none, fun _ => GenOutcome.exn msgBoom⟩

def worldNoUpload : DirEntry → PathInfo × Remote :=
  fun _ => (pGoodMp4, remoteNoUpload)

def entryClip : DirEntry := { dir := [], name := "clip.mp4", suffix := ".mp4".data }

/-- Witness for C9 on a one-file directory whose upload fails and a prior
row for another file. -/
theorem claim9_witness :
    exactlyOne (mkError pGoodMp4.name errUploadFailed) ∧
    (processDir (fun e => analyzeVideo (worldNoUpload e).1 (worldNoUpload e).2 3)
        [entryClip] false (some [rowV1]) none).length =
      (remainingFiles [entryClip] false (some [rowV1]) none).length +
        (previousOf false (some [rowV1])).2.length :=
  ⟨(claim9_result_invariant.2 worldNoUpload [entryClip] false (some [rowV1]) none).1
      (mkError pGoodMp4.name errUploadFailed) (by decide),
   (claim9_result_invariant.2 worldNoUpload [entryClip] false (some [rowV1]) none).2⟩

/-- Claim C10: membership in the to-process list is decided by the basename
alone — an entry survives the skip filter exactly when it passed the
extension/specific filter and its basename is not in the skip set, whatever
its subdirectory; and a non-empty `specific` filename selects exactly the
entries whose basename equals it. -/
theorem claim10_basename_only (entries : List DirEntry) (forceRetry : Bool)
    (csvRows : Option (List (List String))) (specific : Option String) :
    (∀ e : DirEntry, e ∈ remainingFiles entries forceRetry csvRows specific ↔
      (e ∈ collectVideoFiles entries specific ∧
        ¬ e.name ∈ (previousOf forceRetry csvRows).1)) ∧
    (∀ s : String, ¬ s = emptyStr → ∀ e : DirEntry,
      e ∈ collectVideoFiles entries (some s) ↔
        (e ∈ entries ∧ videoExtensionsL.contains (lcLower e.suffix) = true ∧
          e.name = s)) := by
  constructor
  · intro e
    unfold remainingFiles
    cases hprev : ((previousOf forceRetry csvRows).1).isEmpty with
    | true =>
      have hnil : (previousOf forceRetry csvRows).1 = [] := by
        cases hp : (previousOf forceRetry csvRows).1 with
        | nil => rfl
        | cons a as => rw [hp] at hprev; cases hprev
      simp [hnil]
    | false =>
      simp only [hprev, Bool.false_eq_true, if_false]
      rw [List.mem_filter]
      constructor
      · rintro ⟨h1, h2⟩
        refine ⟨h1, ?_⟩
        intro hmem
        have hcon : (previousOf forceRetry csvRows).1.contains e.name = true :=
          List.elem_eq_true_of_mem hmem
        rw [hcon] at h2
        cases h2
      · rintro ⟨h1, h2⟩
        refine ⟨h1, ?_⟩
        cases hcon : (previousOf forceRetry csvRows).1.contains e.name with
        | false => rfl
        | true =>
          exact absurd (List.elem_iff.mp hcon) h2
  · intro s hs e
    unfold collectVideoFiles
    rw [List.mem_filter]
    have hsb : (s == emptyStr) = false := by
      cases hsz : s == emptyStr with
      | false => rfl
      | true => exact absurd (beq_iff_eq.mp hsz) hs
    simp only [specMatch, hsb, Bool.false_eq_true, if_false]
    constructor
    · rintro ⟨h1, h2⟩
      simp only [Bool.and_eq_true] at h2
      exact ⟨h1, h2.1, beq_iff_eq.mp h2.2⟩
    · rintro ⟨h1, h2, h3⟩
      refine ⟨h1, ?_⟩
      rw [h2, h3]
      simp

def nameClip : String := "clip.mp4"

/-- Witness for C10: `clip.mp4` is selected by `specific = "clip.mp4"`. -/
theorem claim10_witness : entryClip ∈ collectVideoFiles [entryClip] (some nameClip) :=
  ((claim10_basename_only [entryClip] false none (some nameClip)).2 nameClip
      (by decide) entryClip).mpr ⟨by decide, by decide, rfl⟩

end VideoTagger
